import Mathlib

/-!
Verification development for an authenticated REST trading client
(`rest/client.py`): request encoding and signing, response-envelope
processing, call throttling, order validation, position lookup, and the
paginated trade-history aggregation loop `get_all_trades`.

Times and numeric parameters are modelled as rationals, byte strings as
`String`, and the HTTP and JSON layers by their documented behaviour:
the query-string encoder drops parameters whose value is `None`, while
the JSON body encoder serialises `None` as `null` and keeps the key.
-/

namespace Ftx

/-- Scalar parameter values appearing in request parameter mappings. -/
inductive JVal where
  | num (n : Int)
  | str (s : String)
  | bool (b : Bool)
deriving DecidableEq, Repr

/-- Rendering of a scalar inside a query string (as by urlencode). -/
def JVal.queryStr : JVal → String
  | .num n => toString n
  | .str s => s
  | .bool b => cond b "True" "False"

/-- Rendering of a scalar inside a JSON document. -/
def JVal.jsonStr : JVal → String
  | .num n => toString n
  | .str s => "\"" ++ s ++ "\""
  | .bool b => cond b "true" "false"

/-- JSON rendering of an optional value: absent values render as null. -/
def jsonValue : Option JVal → String
  | none => "null"
  | some v => v.jsonStr

/-- Join a list of strings with a separator. -/
def sepJoin (sep : String) : List String → String
  | [] => ""
  | [x] => x
  | x :: xs => x ++ sep ++ sepJoin sep xs

/-- Query-string encoding as performed by the HTTP library when preparing a
GET request: entries whose value is absent (None) are dropped; the rest
become k=v pairs joined by an ampersand. Percent-encoding is omitted since
every input exercised here uses unreserved characters. -/
def encodeQuery (params : List (String × Option JVal)) : String :=
  sepJoin "&" (params.filterMap (fun p => p.2.map (fun v => p.1 ++ "=" ++ v.queryStr)))

/-- JSON body encoding as performed by the HTTP library for `json=params`
(json.dumps with default separators): absent (None) values are kept and
serialise as null. -/
def encodeJsonBody (params : List (String × Option JVal)) : String :=
  "\x7b" ++ sepJoin ", " (params.map (fun p => "\"" ++ p.1 ++ "\": " ++ jsonValue p.2)) ++ "\x7d"

/-- HTTP methods used by the client. -/
inductive Method where
  | GET
  | POST
  | DELETE
deriving DecidableEq, Repr

/-- Wire form of the method, as passed to the HTTP library. -/
def Method.str : Method → String
  | .GET => "GET"
  | .POST => "POST"
  | .DELETE => "DELETE"

/-- Prepared request: the method string, the URL path including the query
string (no scheme or host), and the body bytes when present. -/
structure Prepared where
  method : String
  path_url : String
  body : Option String
deriving DecidableEq, Repr

/-- Path plus query string: the question mark is appended only when the
encoded query is non-empty. -/
def pathUrl (path query : String) : String :=
  if query = "" then path else path ++ "?" ++ query

/-- Request preparation for the three client verbs: `_get` sends the
parameters in the query string, `_post` and `_delete` send them as a
JSON-encoded body. A missing parameter mapping gives a GET with bare path
and a POST/DELETE with no body. -/
def prepareRequest (m : Method) (path : String)
    (params : Option (List (String × Option JVal))) : Prepared :=
  match m with
  | .GET => ⟨"GET", pathUrl path (encodeQuery (params.getD [])), none⟩
  | .POST => ⟨"POST", path, params.map encodeJsonBody⟩
  | .DELETE => ⟨"DELETE", path, params.map encodeJsonBody⟩

/-- Lower-case hexadecimal alphabet. -/
def hexAlphabet : List Char := "0123456789abcdef".data

/-- Hex digit of the low nibble of a natural number. -/
def hexDigit (n : Nat) : Char := hexAlphabet.getD (n % 16) '0'

/-- Lower-case hex encoding of a byte sequence, as produced by hexdigest. -/
def hexOfBytes (bs : List Nat) : String :=
  String.mk (bs.flatMap (fun b => [hexDigit (b / 16), hexDigit b]))

/-- Authentication headers attached to a signed request. -/
structure SignedHeaders where
  key : String
  sign : String
  ts : String
deriving DecidableEq, Repr

/-- Signature payload built by `_sign_request`: decimal timestamp, method and
path_url concatenated, with the body appended when it is truthy (a missing or
empty body contributes nothing). -/
def signaturePayload (ts : Nat) (p : Prepared) : String :=
  let base := toString ts ++ p.method ++ p.path_url
  match p.body with
  | some b => if b = "" then base else base ++ b
  | none => base

/-- Signing as in `_sign_request`: the signature header is the hex encoding of
the HMAC-SHA256 of the payload keyed by the secret (the HMAC primitive itself
is the standard library's and is taken as a function parameter), and the
timestamp header is the decimal string of the same timestamp. -/
def sign_request (hmacSha256 : String → String → List Nat)
    (api_key api_secret : String) (ts : Nat) (p : Prepared) : SignedHeaders :=
  ⟨api_key, hexOfBytes (hmacSha256 api_secret (signaturePayload ts p)), toString ts⟩

/-- Response envelope fields as read by `_process_response`. -/
structure Envelope where
  success : Bool
  error : String
  result : JVal
deriving DecidableEq, Repr

/-- HTTP response: status code, and the decoded envelope when the body parses
as structured data (none models a ValueError from response.json()). -/
structure HttpResponse where
  status : Nat
  json : Option Envelope
deriving DecidableEq, Repr

/-- Outcome of processing a response. -/
inductive ApiOutcome where
  | ok (v : JVal)
  | domainError (msg : String)
  | httpError (status : Nat)
  | jsonDecodeError
deriving DecidableEq, Repr

/-- Transcription of `_process_response`: if the body fails to decode,
raise_for_status raises for a 4xx/5xx status and otherwise the decode error
is re-raised; if it decodes with success false, a domain error carrying the
server's error string is raised; otherwise the result payload is returned. -/
def process_response (r : HttpResponse) : ApiOutcome :=
  match r.json with
  | none => if 400 ≤ r.status then .httpError r.status else .jsonDecodeError
  | some data => if data.success then .ok data.result else .domainError data.error

/-- Timed semantics of the slow_down wrapper: the wrapped call starts at t0
with no pre-call delay and runs for d; elapsed is measured as d; when elapsed
is below the 50ms floor (1/20 s) the wrapper sleeps for the remaining
difference. Returns (inner call start, inner call finish, wrapper return). -/
def slowDownTimes (t0 d : ℚ) : ℚ × ℚ × ℚ :=
  let innerStart := t0
  let innerFinish := innerStart + d
  let elapsed := innerFinish - t0
  (innerStart, innerFinish,
    if elapsed < 1 / 20 then innerFinish + (1 / 20 - elapsed) else innerFinish)

/-- Outcome of modify_order: either an assertion failure before any request
exists, or the request (path plus the optional body fields actually sent:
the dict spreading drops absent size, price and clientId). -/
inductive ModifyOutcome where
  | validationError (msg : String)
  | request (path : String) (size price : Option ℚ) (clientId : Option String)
deriving DecidableEq, Repr

/-- Transcription of modify_order: assert exactly one of the two order
identifiers, then assert at most one of price and size, then post to the
path selected by which identifier was given. -/
def modify_order (existing_order_id existing_client_order_id : Option String)
    (price size : Option ℚ) (client_order_id : Option String) : ModifyOutcome :=
  if !(Bool.xor existing_order_id.isNone existing_client_order_id.isNone) then
    .validationError "Must supply exactly one ID for the order to modify"
  else if !(price.isNone || size.isNone) then
    .validationError "Must modify price or size of order"
  else
    .request
      (match existing_order_id with
        | some oid => "orders/" ++ oid ++ "/modify"
        | none => "orders/by_client_id/" ++ existing_client_order_id.getD "" ++ "/modify")
      size price client_order_id

/-- Position record as filtered by get_position (only the future name is
inspected; size stands for the remaining exchange-defined fields). -/
structure Position where
  future : String
  size : Int
deriving DecidableEq, Repr

/-- Transcription of get_position: next(filter(lambda x: x["future"] == name,
positions), None), where positions is the list returned by get_positions. -/
def get_position (positions : List Position) (name : String) : Option Position :=
  List.find? (fun x => x.future == name) positions

/-- Trade record as used by get_all_trades: the identifier, and the parsed
timestamp of its time field (parse_datetime(...).timestamp()). -/
structure Trade where
  id : Nat
  time : ℚ
deriving DecidableEq, Repr

/-- Minimum parsed timestamp over a page, min(parse_datetime(t["time"]) for t
in response).timestamp(); only evaluated on non-empty pages. -/
def pageMin : List Trade → ℚ
  | [] => 0
  | t :: ts => ts.foldl (fun m r => min m r.time) t.time

/-- Dedup filter of the aggregation loop:
deduped_trades = [r for r in response if r["id"] not in ids]. -/
def deduped_trades (ids : List Nat) (response : List Trade) : List Trade :=
  response.filter (fun r => !decide (r.id ∈ ids))

/-- Loop of get_all_trades over a server function srv (start_time, end_time ↦
page), with explicit fuel standing for the iteration count (the Python loop
is unbounded). Returns the accumulated deduplicated results together with the
trace of (start_time, end_time) pairs passed to each page fetch, or none if
the fuel runs out before the loop stops. -/
def getAllTradesAux (srv : Option ℚ → Option ℚ → List Trade) (start_time : Option ℚ) :
    Nat → List Nat → List Trade → Option ℚ →
    Option (List Trade × List (Option ℚ × Option ℚ))
  | 0, _, _, _ => none
  | fuel + 1, ids, results, end_time =>
    let response := srv start_time end_time
    let deduped := deduped_trades ids response
    let results2 := results ++ deduped
    let ids2 := ids ++ deduped.map Trade.id
    if response.length = 0 then some (results2, [(start_time, end_time)])
    else if response.length < 100 then some (results2, [(start_time, end_time)])
    else
      (getAllTradesAux srv start_time fuel ids2 results2 (some (pageMin response))).map
        (fun p => (p.1, (start_time, end_time) :: p.2))

/-- Entry point of get_all_trades: ids and results start empty and the cursor
starts at the caller's end_time. -/
def get_all_trades (srv : Option ℚ → Option ℚ → List Trade)
    (start_time end_time : Option ℚ) (fuel : Nat) :
    Option (List Trade × List (Option ℚ × Option ℚ)) :=
  getAllTradesAux srv start_time fuel [] [] end_time

/-- Timed trace of the page fetches inside one get_all_trades aggregation:
srv yields each page together with the wall-clock duration of that network
call; the loop body contains no sleep, so each fetch starts exactly when the
previous one returns. Returns the (start time, duration) of every fetch. -/
def getAllTradesFetches (srv : Option ℚ → Option ℚ → List Trade × ℚ)
    (start_time : Option ℚ) :
    Nat → List Nat → Option ℚ → ℚ → Option (List (ℚ × ℚ))
  | 0, _, _, _ => none
  | fuel + 1, ids, end_time, clock =>
    let pr := srv start_time end_time
    let response := pr.1
    let deduped := deduped_trades ids response
    if response.length = 0 then some [(clock, pr.2)]
    else if response.length < 100 then some [(clock, pr.2)]
    else
      (getAllTradesFetches srv start_time fuel (ids ++ deduped.map Trade.id)
          (some (pageMin response)) (clock + pr.2)).map
        (fun fs => (clock, pr.2) :: fs)

/-- Two timed fetches are back-to-back when the second starts exactly when
the first returns (start plus duration), with no inserted delay. -/
def backToBack (c1 c2 : ℚ × ℚ) : Prop := c2.1 = c1.1 + c1.2

/-- Relation between consecutive calls in the aggregation trace: the earlier
call's page was non-empty and the later call's cursor is the minimum parsed
timestamp over that full page. -/
def cursorStep (srv : Option ℚ → Option ℚ → List Trade) (st : Option ℚ)
    (c1 c2 : Option ℚ × Option ℚ) : Prop :=
  srv st c1.2 ≠ [] ∧ c2.2 = some (pageMin (srv st c1.2))

/-- Saturated page of 100 trades with distinct ids 0..99 and times 0..99. -/
def tpage : List Trade := (List.range 100).map (fun i => ⟨i, (i : ℚ)⟩)

/-- Server whose first page repeats one identifier inside a single page. -/
def srvDup : Option ℚ → Option ℚ → List Trade := fun _ _ => [⟨1, 0⟩, ⟨1, 0⟩]

/-- Timed server: a saturated 100-trade page taking 10ms, then an empty page
also taking 10ms. -/
def srvC2 : Option ℚ → Option ℚ → List Trade × ℚ := fun _ et =>
  match et with
  | none => (tpage, 1 / 100)
  | some _ => (([] : List Trade), 1 / 100)

/-- Server: a saturated page, then a one-trade page repeating identifier 0. -/
def srvC3 : Option ℚ → Option ℚ → List Trade := fun _ et =>
  match et with
  | none => tpage
  | some _ => [⟨0, 0⟩]

/-- Server: a saturated page, then an empty page. -/
def srvC4 : Option ℚ → Option ℚ → List Trade := fun _ et =>
  match et with
  | none => tpage
  | some _ => []

/-- Server with no trades at all. -/
def srvEmpty : Option ℚ → Option ℚ → List Trade := fun _ _ => []

/-- Concrete stand-in for the HMAC-SHA256 primitive used in witnesses. -/
def hmacW : String → String → List Nat := fun _ _ => [0, 255]

/-- Signature payload is exactly timestamp, method and path_url concatenated
with the body bytes appended when present (an absent or empty body
contributes nothing, which coincides with appending the empty string). -/
lemma signaturePayload_eq (ts : Nat) (p : Prepared) :
    signaturePayload ts p = toString ts ++ p.method ++ p.path_url ++ p.body.getD "" := by
  unfold signaturePayload
  rcases p with ⟨me, pu, _ | b⟩
  · simp only [Option.getD_none]
    rw [String.append_empty]
  · simp only [Option.getD_some]
    split
    · next hb => rw [hb, String.append_empty]
    · rfl

/-- Dropping the absent-valued entries of a parameter list does not change
its query-string encoding, since the encoder already skips them. -/
lemma encodeQuery_strip (params : List (String × Option JVal)) :
    encodeQuery (params.filter (fun p => p.2.isSome)) = encodeQuery params := by
  unfold encodeQuery
  congr 1
  induction params with
  | nil => rfl
  | cons a l ih =>
    cases h : a.2 <;> simp [List.filter_cons, List.filterMap_cons, h, ih]

/-- C1 (counterexample): a POST parameter mapping with a equal to 1 and b
absent is encoded with b present as null in the JSON body, and differs from
the encoding obtained after stripping b, contradicting the claim that absent
parameters are removed from every request before encoding. -/
theorem c1_counterexample :
    (prepareRequest .POST "test" (some [("a", some (.num 1)), ("b", none)])).body
        = some "\x7b\"a\": 1, \"b\": null\x7d"
    ∧ (prepareRequest .POST "test" (some [("a", some (.num 1)), ("b", none)])).body
        ≠ (prepareRequest .POST "test" (some [("a", some (.num 1))])).body :=
  ⟨by decide, by decide⟩

/-- C1 (amended): absent-valued parameters are stripped from GET requests —
the prepared request, and hence its signature, are unchanged by dropping
them — while POST and DELETE requests keep absent parameters in the
JSON-encoded body as null, and their signature payload includes that body
(nulls and all) verbatim after the timestamp, method and path. -/
theorem c1_null_handling :
    (∀ path params, prepareRequest .GET path (some params)
        = prepareRequest .GET path (some (params.filter (fun p => p.2.isSome))))
    ∧ (∀ hm key secret ts path params,
        sign_request hm key secret ts (prepareRequest .GET path (some params))
          = sign_request hm key secret ts
              (prepareRequest .GET path (some (params.filter (fun p => p.2.isSome)))))
    ∧ (∀ path params,
        (prepareRequest .POST path (some params)).body = some (encodeJsonBody params)
        ∧ (prepareRequest .DELETE path (some params)).body = some (encodeJsonBody params))
    ∧ (∀ ts path params,
        signaturePayload ts (prepareRequest .POST path (some params))
          = toString ts ++ "POST" ++ path ++ encodeJsonBody params
        ∧ signaturePayload ts (prepareRequest .DELETE path (some params))
          = toString ts ++ "DELETE" ++ path ++ encodeJsonBody params) := by
  refine ⟨fun path params => ?_, fun hm key secret ts path params => ?_,
    fun path params => ⟨rfl, rfl⟩, fun ts path params => ⟨?_, ?_⟩⟩
  · simp [prepareRequest, encodeQuery_strip]
  · simp [prepareRequest, encodeQuery_strip]
  · rw [signaturePayload_eq]
    rfl
  · rw [signaturePayload_eq]
    rfl

/-- C6: envelope processing — a decoded envelope with success true yields the
unwrapped result, success false yields a domain error carrying exactly the
server-provided error string, and an undecodable body never yields a domain
error: it surfaces the HTTP status error when the status is an error status,
and re-raises the decode failure otherwise. -/
theorem c6_envelope (r : HttpResponse) :
    (∀ env, r.json = some env → env.success = true →
        process_response r = .ok env.result)
    ∧ (∀ env, r.json = some env → env.success = false →
        process_response r = .domainError env.error)
    ∧ (r.json = none →
        (∀ m, process_response r ≠ .domainError m)
        ∧ (400 ≤ r.status → process_response r = .httpError r.status)
        ∧ (r.status < 400 → process_response r = .jsonDecodeError)) := by
  refine ⟨?_, ?_, ?_⟩
  · intro env hj hs
    simp [process_response, hj, hs]
  · intro env hj hs
    simp [process_response, hj, hs]
  · intro hj
    refine ⟨?_, ?_, ?_⟩
    · intro m
      simp only [process_response, hj]
      split <;> simp
    · intro hst
      simp [process_response, hj, hst]
    · intro hst
      simp [process_response, hj, Nat.not_le.mpr hst]

/-- C6 (witness): a response decoding to success false with error string
"bad request" fails with a domain error carrying exactly that string. -/
theorem c6_witness :
    process_response ⟨200, some ⟨false, "bad request", .num 0⟩⟩
      = ApiOutcome.domainError "bad request" :=
  (c6_envelope _).2.1 ⟨false, "bad request", .num 0⟩ rfl rfl

/-- C8: the slow_down wrapper dispatches the wrapped call at its own start
time (no pre-call delay); when the call's elapsed time is below the 50ms
floor the wrapper returns at start plus the floor, having blocked for exactly
the remaining difference after the call; when the call took at least the
floor it returns as soon as the call does; overall the wrapper returns at
start plus the maximum of the elapsed time and the floor. -/
theorem c8_throttle (t0 d : ℚ) :
    (slowDownTimes t0 d).1 = t0
    ∧ (d < 1 / 20 →
        (slowDownTimes t0 d).2.2 = t0 + 1 / 20
        ∧ (slowDownTimes t0 d).2.2 - (slowDownTimes t0 d).2.1 = 1 / 20 - d)
    ∧ (1 / 20 ≤ d → (slowDownTimes t0 d).2.2 = (slowDownTimes t0 d).2.1)
    ∧ (slowDownTimes t0 d).2.2 = t0 + max d (1 / 20) := by
  have he : t0 + d - t0 = d := by ring
  simp only [slowDownTimes, he]
  refine ⟨by trivial, ?_, ?_, ?_⟩
  · intro h
    rw [if_pos h]
    constructor <;> ring
  · intro h
    rw [if_neg (not_lt.mpr h)]
  · rcases lt_or_le d (1 / 20) with h | h
    · rw [if_pos h, max_eq_right h.le]
      ring
    · rw [if_neg (not_lt.mpr h), max_eq_left h]

/-- C8 (witness): a wrapped call taking 10ms returns at start plus 50ms. -/
theorem c8_witness : (slowDownTimes 0 (1 / 100)).2.2 = 0 + 1 / 20 :=
  ((c8_throttle 0 (1 / 100)).2.1 (by norm_num)).1

/-- C9: calling modify_order with both order identifiers supplied, or with
neither supplied, fails the identifier assertion: the outcome is the
validation error and no request value is ever produced. -/
theorem c9_validation (eoid ecoid : Option String) (price size : Option ℚ)
    (cid : Option String) (h : eoid.isSome = ecoid.isSome) :
    modify_order eoid ecoid price size cid
        = .validationError "Must supply exactly one ID for the order to modify"
    ∧ ∀ p s pr c, modify_order eoid ecoid price size cid ≠ .request p s pr c := by
  have hx : modify_order eoid ecoid price size cid
      = .validationError "Must supply exactly one ID for the order to modify" := by
    cases eoid <;> cases ecoid <;> simp_all [modify_order]
  refine ⟨hx, fun p s pr c => ?_⟩
  rw [hx]
  simp

/-- C9 (witness): both identifiers supplied yields the validation error. -/
theorem c9_witness :
    modify_order (some "a") (some "b") none none none
      = ModifyOutcome.validationError "Must supply exactly one ID for the order to modify" :=
  (c9_validation (some "a") (some "b") none none none rfl).1

/-- Helper for get_position: find? returns the first element of the list
matching the name when everything before it fails to match. -/
lemma find?_first_position (name : String) :
    ∀ (l1 : List Position) (p : Position) (l2 : List Position),
      p.future = name → (∀ x ∈ l1, x.future ≠ name) →
      List.find? (fun x => x.future == name) (l1 ++ p :: l2) = some p := by
  intro l1
  induction l1 with
  | nil =>
    intro p l2 hp _
    simpa using
      List.find?_cons_of_pos (p := fun x : Position => x.future == name) (a := p) l2
        (by simp [hp])
  | cons a l ih =>
    intro p l2 hp hall
    have ha : a.future ≠ name := hall a (by simp)
    rw [List.cons_append, List.find?_cons_of_neg _ (by simp [ha])]
    exact ih p l2 hp (fun x hx => hall x (by simp [hx]))

/-- C10: get_position returns none (rather than raising) when no entry of the
position list has the requested future name, and returns the first matching
entry in list order when at least one matches. -/
theorem c10_get_position (positions : List Position) (name : String) :
    ((∀ x ∈ positions, x.future ≠ name) → get_position positions name = none)
    ∧ (∀ l1 p l2, positions = l1 ++ p :: l2 → p.future = name →
        (∀ x ∈ l1, x.future ≠ name) → get_position positions name = some p) := by
  constructor
  · intro hall
    unfold get_position
    apply List.find?_eq_none.mpr
    intro x hx
    simp [hall x hx]
  · intro l1 p l2 hpos hp hall
    unfold get_position
    rw [hpos]
    exact find?_first_position name l1 p l2 hp hall

/-- C10 (witness): with one non-matching entry followed by two matching ones,
get_position returns the first match in list order. -/
theorem c10_witness :
    get_position [⟨"A", 1⟩, ⟨"B", 2⟩, ⟨"B", 3⟩] "B" = some ⟨"B", 2⟩ :=
  (c10_get_position _ "B").2 [⟨"A", 1⟩] ⟨"B", 2⟩ [⟨"B", 3⟩] rfl rfl (by decide)

/-- C5: one iteration of the aggregation loop stops exactly on an empty or
short page — when the fetched page has fewer than 100 records (including
zero) the loop returns the records accumulated so far plus the page's
deduplicated records after this single call, and when the page has at least
100 records the loop continues with the next call. -/
theorem c5_termination (srv : Option ℚ → Option ℚ → List Trade) (st : Option ℚ)
    (ids : List Nat) (results : List Trade) (et : Option ℚ) (fuel : Nat) :
    ((srv st et).length < 100 →
      getAllTradesAux srv st (fuel + 1) ids results et
        = some (results ++ deduped_trades ids (srv st et), [(st, et)]))
    ∧ (100 ≤ (srv st et).length →
      getAllTradesAux srv st (fuel + 1) ids results et
        = (getAllTradesAux srv st fuel
            (ids ++ (deduped_trades ids (srv st et)).map Trade.id)
            (results ++ deduped_trades ids (srv st et))
            (some (pageMin (srv st et)))).map
            (fun p => (p.1, (st, et) :: p.2))) := by
  constructor
  · intro hlt
    by_cases h0 : (srv st et).length = 0
    · simp [getAllTradesAux, h0]
    · simp [getAllTradesAux, h0, hlt]
  · intro hge
    have h0 : ¬ (srv st et).length = 0 := by omega
    have h1 : ¬ (srv st et).length < 100 := by omega
    simp [getAllTradesAux, h0, h1]

/-- C5 (witness): a first call returning zero records terminates the
aggregation after exactly one underlying call with an empty result. -/
theorem c5_witness :
    getAllTradesAux srvEmpty none 1 [] [] none = some ([], [(none, none)]) :=
  ((c5_termination srvEmpty none [] [] none 0).1 (by decide)).trans (by decide)

/-- Every character produced by hexDigit belongs to the lower-case
hexadecimal alphabet. -/
lemma hexDigit_mem (n : Nat) : hexDigit n ∈ hexAlphabet := by
  unfold hexDigit
  rw [List.getD_eq_getD_get? hexAlphabet '0' (n % 16)]
  rcases h : hexAlphabet.get? (n % 16) with _ | c
  · simp only [Option.getD_none]
    decide
  · simp only [Option.getD_some]
    exact List.get?_mem h

/-- Every character of a hex-encoded byte sequence is a lower-case hex
character. -/
lemma hexOfBytes_mem (bs : List Nat) (c : Char) (hc : c ∈ (hexOfBytes bs).data) :
    c ∈ hexAlphabet := by
  have hc' : c ∈ bs.flatMap (fun b => [hexDigit (b / 16), hexDigit b]) := hc
  rcases List.mem_flatMap.mp hc' with ⟨b, _, hb⟩
  simp only [List.mem_cons, List.not_mem_nil, or_false] at hb
  rcases hb with hb | hb <;> exact hb ▸ hexDigit_mem _

/-- Method string attached to a prepared request. -/
lemma prepareRequest_method (m : Method) (path : String)
    (params : Option (List (String × Option JVal))) :
    (prepareRequest m path params).method = m.str := by
  rcases m <;> rfl

/-- C7: for every request prepared and signed by the client, the signature
header is the lower-case hex encoding of the HMAC-SHA256 (keyed by the
secret) of the decimal timestamp string, upper-case method, path_url
(path including query string) and body-when-present concatenated with no
separators, and the timestamp header is the decimal string of the same
timestamp. -/
theorem c7_signature (hmacSha256 : String → String → List Nat)
    (api_key api_secret : String) (ts : Nat) (m : Method) (path : String)
    (params : Option (List (String × Option JVal))) :
    (sign_request hmacSha256 api_key api_secret ts (prepareRequest m path params)).sign
      = hexOfBytes (hmacSha256 api_secret
          (toString ts ++ m.str ++ (prepareRequest m path params).path_url
            ++ ((prepareRequest m path params).body.getD "")))
    ∧ (sign_request hmacSha256 api_key api_secret ts (prepareRequest m path params)).ts
        = toString ts
    ∧ (∀ c ∈ (sign_request hmacSha256 api_key api_secret ts
          (prepareRequest m path params)).sign.data, c ∈ hexAlphabet)
    ∧ (∀ c ∈ (prepareRequest m path params).method.data, c.isUpper = true) := by
  refine ⟨?_, rfl, ?_, ?_⟩
  · simp [sign_request, signaturePayload_eq, prepareRequest_method]
  · intro c hc
    exact hexOfBytes_mem _ c hc
  · have hG : ∀ c ∈ "GET".data, c.isUpper = true := by decide
    have hP : ∀ c ∈ "POST".data, c.isUpper = true := by decide
    have hD : ∀ c ∈ "DELETE".data, c.isUpper = true := by decide
    intro c hc
    rw [prepareRequest_method] at hc
    rcases m with _ | _ | _
    · exact hG c hc
    · exact hP c hc
    · exact hD c hc

/-- C7 (witness): timestamp header of a concrete signed request is the
decimal string of the signing timestamp. -/
theorem c7_witness :
    (sign_request hmacW "k" "s" 7 (prepareRequest Method.GET "futures" none)).ts = "7" :=
  ((c7_signature hmacW "k" "s" 7 Method.GET "futures" none).2.1).trans (by decide)

/-- Shape of the aggregation call trace: the first call uses the caller's
cursor, every call uses the fixed start_time, and each later call's cursor is
the minimum parsed timestamp of the previous (non-empty) full page. -/
lemma getAllTradesAux_calls (srv : Option ℚ → Option ℚ → List Trade) (st : Option ℚ) :
    ∀ (fuel : Nat) (ids : List Nat) (results : List Trade) (et : Option ℚ)
      (res : List Trade) (calls : List (Option ℚ × Option ℚ)),
      getAllTradesAux srv st fuel ids results et = some (res, calls) →
      calls.head? = some (st, et)
      ∧ (∀ c ∈ calls, c.1 = st)
      ∧ List.Chain' (cursorStep srv st) calls := by
  intro fuel
  induction fuel with
  | zero =>
    intro ids results et res calls h
    simp [getAllTradesAux] at h
  | succ n ih =>
    intro ids results et res calls h
    simp only [getAllTradesAux] at h
    by_cases h0 : (srv st et).length = 0
    · rw [if_pos h0] at h
      simp only [Option.some.injEq, Prod.mk.injEq] at h
      rw [← h.2]
      refine ⟨rfl, by simp, by simp⟩
    · rw [if_neg h0] at h
      by_cases h1 : (srv st et).length < 100
      · rw [if_pos h1] at h
        simp only [Option.some.injEq, Prod.mk.injEq] at h
        rw [← h.2]
        refine ⟨rfl, by simp, by simp⟩
      · rw [if_neg h1] at h
        rcases Option.map_eq_some'.mp h with ⟨p, hp, hfp⟩
        obtain ⟨hres, hcalls⟩ := Prod.mk.injEq .. ▸ hfp
        obtain ⟨ihHead, ihAll, ihChain⟩ := ih _ _ _ p.1 p.2 hp
        rw [← hcalls]
        refine ⟨rfl, ?_, ?_⟩
        · intro c hc
          rcases List.mem_cons.mp hc with hc | hc
          · rw [hc]
          · exact ihAll c hc
        · refine List.chain'_cons'.mpr ⟨?_, ihChain⟩
          intro b hb
          rw [ihHead, Option.mem_def, Option.some.injEq] at hb
          refine ⟨?_, ?_⟩
          · intro hnil
            exact h0 (by rw [hnil]; rfl)
          · rw [← hb]
  -- end of induction

/-- C4: in every terminating run of the aggregation, start_time is passed
unchanged on every underlying call, and whenever a call is followed by
another, the page it received was non-empty and the next call's end_time is
the minimum parsed timestamp over all records of that full page. -/
theorem c4_cursor (srv : Option ℚ → Option ℚ → List Trade) (st et : Option ℚ)
    (fuel : Nat) (res : List Trade) (calls : List (Option ℚ × Option ℚ))
    (h : get_all_trades srv st et fuel = some (res, calls)) :
    (∀ c ∈ calls, c.1 = st) ∧ List.Chain' (cursorStep srv st) calls :=
  ⟨(getAllTradesAux_calls srv st fuel [] [] et res calls h).2.1,
   (getAllTradesAux_calls srv st fuel [] [] et res calls h).2.2⟩

set_option maxRecDepth 10000 in
/-- C4 (witness): on a run fetching a saturated page and then an empty one,
both calls share start_time none and the second call's cursor is the minimum
timestamp of the first full page. -/
theorem c4_witness :
    List.Chain' (cursorStep srvC4 none)
      [((none : Option ℚ), (none : Option ℚ)), (none, some 0)] :=
  (c4_cursor srvC4 none none 2 tpage
    [(none, none), (none, some 0)] (by decide)).2

/-- Accumulated-result invariant of the aggregation: provided every page the
server can return has pairwise-distinct identifiers, and the identifiers of
the accumulated results are distinct and all recorded in the seen set, the
final result's identifiers are pairwise distinct. -/
lemma getAllTradesAux_nodup (srv : Option ℚ → Option ℚ → List Trade) (st : Option ℚ)
    (hpages : ∀ et, ((srv st et).map Trade.id).Nodup) :
    ∀ (fuel : Nat) (ids : List Nat) (results : List Trade) (et : Option ℚ)
      (res : List Trade) (calls : List (Option ℚ × Option ℚ)),
      (results.map Trade.id).Nodup →
      (∀ x ∈ results.map Trade.id, x ∈ ids) →
      getAllTradesAux srv st fuel ids results et = some (res, calls) →
      (res.map Trade.id).Nodup := by
  intro fuel
  induction fuel with
  | zero =>
    intro ids results et res calls _ _ h
    simp [getAllTradesAux] at h
  | succ n ih =>
    intro ids results et res calls hnd hsub h
    simp only [getAllTradesAux] at h
    have hded : ((deduped_trades ids (srv st et)).map Trade.id).Nodup :=
      List.Nodup.sublist (List.Sublist.map Trade.id (List.filter_sublist _)) (hpages et)
    have hdis : (results.map Trade.id).Disjoint
        ((deduped_trades ids (srv st et)).map Trade.id) := by
      intro x hx hy
      rcases List.mem_map.mp hy with ⟨r, hr, hrid⟩
      have hpred := (List.mem_filter.mp hr).2
      have hnotin : r.id ∉ ids := by simpa using hpred
      exact hnotin (by rw [hrid]; exact hsub x hx)
    have hnd2 : ((results ++ deduped_trades ids (srv st et)).map Trade.id).Nodup := by
      rw [List.map_append, List.nodup_append]
      exact ⟨hnd, hded, hdis⟩
    have hsub2 : ∀ x ∈ (results ++ deduped_trades ids (srv st et)).map Trade.id,
        x ∈ ids ++ (deduped_trades ids (srv st et)).map Trade.id := by
      intro x hx
      rw [List.map_append] at hx
      rcases List.mem_append.mp hx with hx | hx
      · exact List.mem_append.mpr (Or.inl (hsub x hx))
      · exact List.mem_append.mpr (Or.inr hx)
    by_cases h0 : (srv st et).length = 0
    · rw [if_pos h0] at h
      simp only [Option.some.injEq, Prod.mk.injEq] at h
      exact h.1 ▸ hnd2
    · rw [if_neg h0] at h
      by_cases h1 : (srv st et).length < 100
      · rw [if_pos h1] at h
        simp only [Option.some.injEq, Prod.mk.injEq] at h
        exact h.1 ▸ hnd2
      · rw [if_neg h1] at h
        rcases Option.map_eq_some'.mp h with ⟨p, hp, hfp⟩
        have hih := ih _ _ _ p.1 p.2 hnd2 hsub2 hp
        have h1' : p.1 = res := congrArg Prod.fst hfp
        rwa [h1'] at hih

/-- C3 (amended): provided each fetched page's identifiers are pairwise
distinct, every trade identifier appears at most once in the accumulated
result of a terminating aggregation; the filter keeps a page record exactly
when its identifier is not among the identifiers seen on previous pages,
irrespective of any other field. -/
theorem c3_dedup (srv : Option ℚ → Option ℚ → List Trade) (st et : Option ℚ)
    (fuel : Nat) (res : List Trade) (calls : List (Option ℚ × Option ℚ))
    (hpages : ∀ e, ((srv st e).map Trade.id).Nodup)
    (h : get_all_trades srv st et fuel = some (res, calls)) :
    (res.map Trade.id).Nodup :=
  getAllTradesAux_nodup srv st hpages fuel [] [] et res calls (by simp) (by simp) h

/-- C3 (counterexample): a single page repeating one identifier is appended
twice — the seen set is only consulted against previous pages — so the claim
that each identifier appears at most once in the result fails. -/
theorem c3_counterexample :
    get_all_trades srvDup none none 1 = some ([⟨1, 0⟩, ⟨1, 0⟩], [(none, none)])
    ∧ ¬ (([Trade.mk 1 0, Trade.mk 1 0].map Trade.id).Nodup) :=
  ⟨by decide, by decide⟩

set_option maxRecDepth 10000 in
/-- C3 (witness): the overlapping-pages scenario — a saturated page with ids
0..99 followed by a short page repeating id 0 — yields a result whose
identifiers are pairwise distinct (union size, not sum). -/
theorem c3_witness : ((tpage).map Trade.id).Nodup :=
  c3_dedup srvC3 none none 2 tpage [(none, none), (none, some 0)]
    (fun e => by
      cases e with
      | none => decide
      | some q => exact (by decide : ((List.map Trade.id [⟨0, 0⟩]).Nodup)))
    (by decide)

/-- Timing invariant of the page fetches inside one aggregation: the first
fetch starts at the loop's start instant, and every later fetch starts
exactly when the previous fetch returns — no spacing is inserted. -/
lemma getAllTradesFetches_chain (srv : Option ℚ → Option ℚ → List Trade × ℚ)
    (st : Option ℚ) :
    ∀ (fuel : Nat) (ids : List Nat) (et : Option ℚ) (clock : ℚ) (fs : List (ℚ × ℚ)),
      getAllTradesFetches srv st fuel ids et clock = some fs →
      fs.head?.map Prod.fst = some clock ∧ List.Chain' backToBack fs := by
  intro fuel
  induction fuel with
  | zero =>
    intro ids et clock fs h
    simp [getAllTradesFetches] at h
  | succ n ih =>
    intro ids et clock fs h
    simp only [getAllTradesFetches] at h
    by_cases h0 : (srv st et).1.length = 0
    · rw [if_pos h0] at h
      simp only [Option.some.injEq] at h
      rw [← h]
      exact ⟨rfl, by simp⟩
    · rw [if_neg h0] at h
      by_cases h1 : (srv st et).1.length < 100
      · rw [if_pos h1] at h
        simp only [Option.some.injEq] at h
        rw [← h]
        exact ⟨rfl, by simp⟩
      · rw [if_neg h1] at h
        rcases Option.map_eq_some'.mp h with ⟨fs', hfs', hcons⟩
        obtain ⟨ihHead, ihChain⟩ := ih _ _ _ fs' hfs'
        rw [← hcons]
        refine ⟨rfl, List.chain'_cons'.mpr ⟨?_, ihChain⟩⟩
        intro b hb
        rw [Option.mem_def] at hb
        have : (some b).map Prod.fst = some (clock + (srv st et).2) := by
          rw [← hb]
          exact ihHead
        simp only [Option.map_some', Option.some.injEq] at this
        exact this

/-- C2 (amended): within one get_all_trades aggregation, consecutive page
fetches are back-to-back — each starts exactly when the previous one
returns, with no minimum spacing inserted between them (the 50ms floor wraps
only whole decorated client calls). -/
theorem c2_no_page_throttle (srv : Option ℚ → Option ℚ → List Trade × ℚ)
    (st et : Option ℚ) (fuel : Nat) (clock : ℚ) (fs : List (ℚ × ℚ))
    (h : getAllTradesFetches srv st fuel [] et clock = some fs) :
    List.Chain' backToBack fs :=
  (getAllTradesFetches_chain srv st fuel [] et clock fs h).2

/-- One timed iteration receiving a short page (fewer than 100 records,
including zero) stops after that single fetch. -/
lemma getAllTradesFetches_stop (srv : Option ℚ → Option ℚ → List Trade × ℚ)
    (st : Option ℚ) (fuel : Nat) (ids : List Nat) (et : Option ℚ) (clock : ℚ)
    (h : (srv st et).1.length < 100) :
    getAllTradesFetches srv st (fuel + 1) ids et clock
      = some [(clock, (srv st et).2)] := by
  by_cases h0 : (srv st et).1.length = 0 <;> simp [getAllTradesFetches, h0, h]

/-- One timed iteration receiving a saturated page recurses with the clock
advanced by exactly that fetch's duration. -/
lemma getAllTradesFetches_go (srv : Option ℚ → Option ℚ → List Trade × ℚ)
    (st : Option ℚ) (fuel : Nat) (ids : List Nat) (et : Option ℚ) (clock : ℚ)
    (h : 100 ≤ (srv st et).1.length) :
    getAllTradesFetches srv st (fuel + 1) ids et clock
      = (getAllTradesFetches srv st fuel
          (ids ++ (deduped_trades ids (srv st et).1).map Trade.id)
          (some (pageMin (srv st et).1)) (clock + (srv st et).2)).map
          (fun fs => (clock, (srv st et).2) :: fs) := by
  have h0 : ¬ (srv st et).1.length = 0 := by omega
  have h1 : ¬ (srv st et).1.length < 100 := by omega
  simp [getAllTradesFetches, h0, h1]

/-- Concrete timed run: a saturated 10ms page then an empty 10ms page give
fetch starts 0 and 10ms — only 10ms apart. -/
lemma srvC2_trace :
    getAllTradesFetches srvC2 none 2 [] none 0
      = some [(0, 1 / 100), (1 / 100, 1 / 100)] := by
  have hlen : (srvC2 none none).1.length = 100 := by
    simp [srvC2, tpage]
  rw [show (2 : Nat) = 1 + 1 from rfl,
    getAllTradesFetches_go srvC2 none 1 [] none 0 (by rw [hlen]),
    getAllTradesFetches_stop srvC2 none 0 _ _ _ (by simp [srvC2])]
  have hd : (srvC2 none none).2 = 1 / 100 := rfl
  have hd2 : (srvC2 none (some (pageMin (srvC2 none none).1))).2 = 1 / 100 := rfl
  rw [hd, hd2]
  norm_num

/-- C2 (counterexample): with two consecutive page fetches of 10ms each, the
second fetch starts 10ms after the first — less than the 50ms floor the
claim asserts between per-page calls. -/
theorem c2_counterexample :
    getAllTradesFetches srvC2 none 2 [] none 0
        = some [(0, 1 / 100), (1 / 100, 1 / 100)]
    ∧ ((1 : ℚ) / 100 - 0 < 1 / 20) :=
  ⟨srvC2_trace, by norm_num⟩

/-- C2 (witness): the two fetch instants of the concrete run are
back-to-back. -/
theorem c2_witness :
    List.Chain' backToBack [((0 : ℚ), 1 / 100), (1 / 100, 1 / 100)] :=
  c2_no_page_throttle srvC2 none none 2 0 [(0, 1 / 100), (1 / 100, 1 / 100)] srvC2_trace

end Ftx
